import Mathlib

/-!
Verification of the hierarchical task view engine of the checkvist-mcp
server.  The definitions below are a shallow embedding of the handlers in
the server source (`checkvist_get_tasks_summary`, `checkvist_get_task_tree`,
`checkvist_get_tasks_paginated`, `checkvist_get_checklist_stats`):

* a task record is modelled by `TaskRecord`; the JS object fields `due`,
  `priority`, `tags_as_text` may be absent (`Option`, with JS falsiness of
  `""` and `0` reproduced at the use sites), the `tasks` (children) and
  `notes` arrays are modelled as lists with the absent array modelled as
  `[]` (the source only ever tests `arr && arr.length > 0`, which cannot
  distinguish the two);
* `taskMap.get` is `taskMapGet`: the source populates a `Map` by iterating
  over the response array, so a later duplicate id overwrites an earlier
  one — hence lookup is `find?` on the reversed list;
* each `result += ...` line of the source becomes one `Line` value, tagged
  with its kind (task line, note line, "more notes" line, elision marker,
  blank separator), so that theorems can count and extract lines; the
  rendered text is recovered by `Line.str`/`linesText`;
* the recursive `formatTask` closures terminate because they only recurse
  when `depth < maxDepth`; the Lean definitions use exactly that guard and
  are defined by well-founded recursion on `(maxDepth - depth).toNat`;
* the statistics helper `getDepth` has **no** such guard in the source; it
  is embedded with an explicit `fuel` argument modelling the JS call
  stack: `none` means the computation has not finished within `fuel`
  nested calls, and divergence is `∀ fuel, getDepth ... fuel ... = none`.

JS numbers are modelled as `Int` (all values involved are integers except
the closed-percentage, modelled over `ℚ` with `Option` capturing the one
`0/0 = NaN` case); strings are Lean `String`s (sequences of code points).
-/

/-- One task record as returned by the data source (field names follow the
JSON fields used by the source; `tasks` is the list of child ids). -/
structure TaskRecord where
  id : Int
  parent_id : Int
  content : String
  status : Int
  tasks : List Int
  due : Option String
  priority : Option Int
  tags_as_text : Option String
  notes : List String
deriving DecidableEq

/-- One output line of a rendered view, tagged with its kind.  `task`
carries the id of the task the line displays, so that theorems can talk
about "rendered task lines". -/
inductive Line where
  | task (text : String) (id : Int)
  | note (text : String)
  | noteMore (text : String)
  | marker (text : String)
  | blank
deriving DecidableEq

/-- The text of one line (the `blank` separator is `output += '\n'`). -/
def Line.str : Line → String
  | .task s _ => s ++ "\n"
  | .note s => s ++ "\n"
  | .noteMore s => s ++ "\n"
  | .marker s => s ++ "\n"
  | .blank => "\n"

/-- The rendered text of a list of lines. -/
def linesText (ls : List Line) : String :=
  String.join (ls.map Line.str)

/-- Ids of the rendered task lines, in rendering order. -/
def taskLineIds (ls : List Line) : List Int :=
  ls.filterMap fun l => match l with | .task _ i => some i | _ => none

/-- Number of subtree elision-marker lines. -/
def countMarkers (ls : List Line) : Nat :=
  (ls.filter fun l => match l with | .marker _ => true | _ => false).length

/-- `taskMap.get(taskId)`: the source builds the map with
`tasks.forEach(task => taskMap.set(task.id, task))`, so the last record
with a given id wins. -/
def taskMapGet (ts : List TaskRecord) (taskId : Int) : Option TaskRecord :=
  ts.reverse.find? fun t => t.id == taskId

/-- `'  '.repeat(depth)`. -/
def indentOf (depth : Nat) : String :=
  String.join (List.replicate depth "  ")

/-- `content.length > n ? content.substring(0, n) + '...' : content`. -/
def truncateContent (s : String) (n : Nat) : String :=
  if s.length > n then s.take n ++ "..." else s

/-- Status glyph of the full branch of `checkvist_get_tasks_summary`:
`task.status === 1 ? '[✓]' : '[ ]'` — note that it does NOT test status 2. -/
def summaryFullGlyph (status : Int) : String :=
  if status = 1 then "[✓]" else "[ ]"

/-- Status glyph of the compact branches (summary and paginated):
`task.status === 1 ? '✓' : task.status === 2 ? '✗' : ' '`. -/
def compactGlyph (status : Int) : String :=
  if status = 1 then "✓" else if status = 2 then "✗" else " "

/-- Status glyph of the full branch of `checkvist_get_task_tree`:
`task.status === 1 ? '[✓]' : task.status === 2 ? '[✗]' : '[ ]'`. -/
def treeFullGlyph (status : Int) : String :=
  if status = 1 then "[✓]" else if status = 2 then "[✗]" else "[ ]"

/-- Status glyph of the full branch of `checkvist_get_tasks_paginated`
(textually identical to the task-tree one, but a separate code site). -/
def paginatedFullGlyph (status : Int) : String :=
  if status = 1 then "[✓]" else if status = 2 then "[✗]" else "[ ]"

/-- ` (due: ...)` suffix of the summary full branch; `task.due ? ... : ''`
(JS falsiness: absent or empty string produce no suffix). -/
def summaryDueSuffix (due : Option String) : String :=
  match due with
  | some d => if d = "" then "" else " (due: " ++ d ++ ")"
  | none => ""

/-- ` !p` priority suffix of the summary full branch; `task.priority ?`
(JS falsiness: absent or `0` produce no suffix). -/
def summaryPrioritySuffix (priority : Option Int) : String :=
  match priority with
  | some p => if p = 0 then "" else " !" ++ toString p
  | none => ""

/-- ` #tags` suffix of the summary full branch. -/
def summaryTagsSuffix (tags : Option String) : String :=
  match tags with
  | some s => if s = "" then "" else " #" ++ s
  | none => ""

/-- ` 📅 due` suffix of the task-tree / paginated full branches. -/
def fullDueSuffix (due : Option String) : String :=
  match due with
  | some d => if d = "" then "" else " 📅 " ++ d
  | none => ""

/-- ` ⚠️ Pp` suffix of the task-tree / paginated full branches. -/
def fullPrioritySuffix (priority : Option Int) : String :=
  match priority with
  | some p => if p = 0 then "" else " ⚠️ P" ++ toString p
  | none => ""

/-- ` 🏷️ tags` suffix of the task-tree / paginated full branches. -/
def fullTagsSuffix (tags : Option String) : String :=
  match tags with
  | some s => if s = "" then "" else " 🏷️ " ++ s
  | none => ""

/-- The recursive `formatTask` closure of `checkvist_get_tasks_summary`.
Structure of the source: missing lookup returns `''`; closed tasks are
skipped (subtree and all) when `includeClosed` is false; the compact
branch prints `[glyph] content [id]` and recurses only when
`depth < maxDepth` (with no elision marker); the full branch prints the
task line, then all note lines, then either the recursed children
(`depth < maxDepth`) or a single elision marker if children exist. -/
def formatTaskSummary (ts : List TaskRecord) (includeClosed compactMode : Bool)
    (maxDepth : Int) (taskId : Int) (depth : Nat) : List Line :=
  match taskMapGet ts taskId with
  | none => []
  | some task =>
    if !includeClosed && task.status == 1 then []
    else
      let indent := indentOf depth
      if compactMode then
        let line := Line.task
          (indent ++ "[" ++ compactGlyph task.status ++ "] " ++ task.content
            ++ " [" ++ toString task.id ++ "]") task.id
        if h : (depth : Int) < maxDepth ∧ task.tasks ≠ [] then
          line :: task.tasks.flatMap
            (fun subtaskId =>
              formatTaskSummary ts includeClosed compactMode maxDepth subtaskId (depth + 1))
        else
          [line]
      else
        let line := Line.task
          (indent ++ summaryFullGlyph task.status ++ " " ++ task.content
            ++ summaryDueSuffix task.due ++ summaryPrioritySuffix task.priority
            ++ summaryTagsSuffix task.tags_as_text
            ++ " [ID: " ++ toString task.id ++ "]") task.id
        let noteLines := task.notes.map fun c => Line.note (indent ++ "  📝 " ++ c)
        if h : (depth : Int) < maxDepth ∧ task.tasks ≠ [] then
          line :: (noteLines ++ task.tasks.flatMap
            (fun subtaskId =>
              formatTaskSummary ts includeClosed compactMode maxDepth subtaskId (depth + 1)))
        else if task.tasks ≠ [] then
          line :: (noteLines ++ [Line.marker
            (indent ++ "  ... (" ++ toString task.tasks.length
              ++ " more subtasks, increase max_depth to see)")])
        else
          line :: noteLines
termination_by (maxDepth - (depth : Int)).toNat
decreasing_by
  all_goals omega

/-- The recursive `formatTask` closure of `checkvist_get_task_tree`.
The compact branch truncates the content to 50 characters and appends an
elision marker (`... (n more, use max_depth=m+1)`) when the depth limit
is reached; the full branch prints the three-state glyph line, up to two
notes (truncated to 150 chars) plus a "more notes" line when `withNotes`,
then children or a marker. -/
def formatTaskTree (ts : List TaskRecord) (includeClosed withNotes compactMode : Bool)
    (maxDepth : Int) (taskId : Int) (depth : Nat) : List Line :=
  match taskMapGet ts taskId with
  | none => []
  | some task =>
    if !includeClosed && task.status == 1 then []
    else
      let indent := indentOf depth
      if compactMode then
        let line := Line.task
          (indent ++ toString task.id ++ ": " ++ truncateContent task.content 50) task.id
        if h : (depth : Int) < maxDepth ∧ task.tasks ≠ [] then
          line :: task.tasks.flatMap
            (fun subtaskId =>
              formatTaskTree ts includeClosed withNotes compactMode maxDepth subtaskId (depth + 1))
        else if (depth : Int) ≥ maxDepth ∧ task.tasks ≠ [] then
          [line, Line.marker
            (indent ++ "  ... (" ++ toString task.tasks.length
              ++ " more, use max_depth=" ++ toString (maxDepth + 1) ++ ")")]
        else
          [line]
      else
        let line := Line.task
          (indent ++ treeFullGlyph task.status ++ " " ++ task.content
            ++ fullDueSuffix task.due ++ fullPrioritySuffix task.priority
            ++ fullTagsSuffix task.tags_as_text
            ++ " [" ++ toString task.id ++ "]") task.id
        let noteLines :=
          if withNotes ∧ task.notes ≠ [] then
            (task.notes.take 2).map
              (fun c => Line.note (indent ++ "  💬 " ++ truncateContent c 150))
            ++ (if task.notes.length > 2 then
                [Line.noteMore (indent ++ "  ... (" ++ toString (task.notes.length - 2)
                  ++ " more notes)")]
              else [])
          else []
        if h : (depth : Int) < maxDepth ∧ task.tasks ≠ [] then
          line :: (noteLines ++ task.tasks.flatMap
            (fun subtaskId =>
              formatTaskTree ts includeClosed withNotes compactMode maxDepth subtaskId (depth + 1)))
        else if (depth : Int) ≥ maxDepth ∧ task.tasks ≠ [] then
          line :: (noteLines ++ [Line.marker
            (indent ++ "  ... (" ++ toString task.tasks.length
              ++ " more subtasks, use max_depth=" ++ toString (maxDepth + 1) ++ ")")])
        else
          line :: noteLines
termination_by (maxDepth - (depth : Int)).toNat
decreasing_by
  all_goals omega

/-- The recursive `formatTask` closure of `checkvist_get_tasks_paginated`.
It has NO completion-state filter: status is only used to pick glyphs.
The ultra-compact branch truncates content to 40 characters and appends
no elision marker; the compact and full branches append `... (n more)`
when the depth limit is reached; notes are never printed. -/
def formatTaskPaginated (ts : List TaskRecord) (compactMode ultraCompact : Bool)
    (maxDepth : Int) (taskId : Int) (depth : Nat) : List Line :=
  match taskMapGet ts taskId with
  | none => []
  | some task =>
    let indent := indentOf depth
    if ultraCompact then
      let line := Line.task
        (indent ++ toString task.id ++ ": " ++ truncateContent task.content 40) task.id
      if h : (depth : Int) < maxDepth ∧ task.tasks ≠ [] then
        line :: task.tasks.flatMap
          (fun subtaskId =>
            formatTaskPaginated ts compactMode ultraCompact maxDepth subtaskId (depth + 1))
      else
        [line]
    else if compactMode then
      let line := Line.task
        (indent ++ "[" ++ compactGlyph task.status ++ "] " ++ task.content
          ++ " [" ++ toString task.id ++ "]") task.id
      if h : (depth : Int) < maxDepth ∧ task.tasks ≠ [] then
        line :: task.tasks.flatMap
          (fun subtaskId =>
            formatTaskPaginated ts compactMode ultraCompact maxDepth subtaskId (depth + 1))
      else if (depth : Int) ≥ maxDepth ∧ task.tasks ≠ [] then
        [line, Line.marker (indent ++ "  ... (" ++ toString task.tasks.length ++ " more)")]
      else
        [line]
    else
      let line := Line.task
        (indent ++ paginatedFullGlyph task.status ++ " " ++ task.content
          ++ fullDueSuffix task.due ++ fullPrioritySuffix task.priority
          ++ fullTagsSuffix task.tags_as_text
          ++ " [ID: " ++ toString task.id ++ "]") task.id
      if h : (depth : Int) < maxDepth ∧ task.tasks ≠ [] then
        line :: task.tasks.flatMap
          (fun subtaskId =>
            formatTaskPaginated ts compactMode ultraCompact maxDepth subtaskId (depth + 1))
      else if (depth : Int) ≥ maxDepth ∧ task.tasks ≠ [] then
        [line, Line.marker (indent ++ "  ... (" ++ toString task.tasks.length ++ " more)")]
      else
        [line]
termination_by (maxDepth - (depth : Int)).toNat
decreasing_by
  all_goals omega

/-- `allTasks.filter(task => task.parent_id === 0)`, in input order. -/
def topLevelTasks (ts : List TaskRecord) : List TaskRecord :=
  ts.filter fun t => t.parent_id == 0

/-- Body of the summary view: `topLevelTasks.forEach(task => summary +=
formatTask(task.id, 0, ''))` (the header and the tips around it contain
no task lines). -/
def summaryBody (ts : List TaskRecord) (includeClosed compactMode : Bool)
    (maxDepth : Int) : List Line :=
  (topLevelTasks ts).flatMap fun t =>
    formatTaskSummary ts includeClosed compactMode maxDepth t.id 0

/-- `Math.ceil(topLevelTasks.length / pageSize)` with the fixed
`pageSize = 1`, i.e. exactly the number of top-level tasks. -/
def totalPages (ts : List TaskRecord) : Nat :=
  (topLevelTasks ts).length

/-- The `checkvist_get_tasks_paginated` handler after the fetch: validates
the page number (`pageNum < 1 || pageNum > totalPages` throws), slices the
top-level tasks (`startIdx = (pageNum-1)*pageSize`,
`endIdx = min(startIdx+pageSize, length)`) and renders each selected root
at depth 0 followed by a blank separator line. -/
def checkvist_get_tasks_paginated (ts : List TaskRecord) (compactMode ultraCompact : Bool)
    (maxDepth : Int) (pageNum : Int) : Except String (List Line) :=
  if pageNum < 1 ∨ pageNum > (totalPages ts : Int) then
    Except.error ("Invalid page " ++ toString pageNum ++ ". Valid pages: 1-"
      ++ toString (totalPages ts))
  else
    Except.ok ((((topLevelTasks ts).drop (pageNum - 1).toNat).take 1).flatMap fun t =>
      formatTaskPaginated ts compactMode ultraCompact maxDepth t.id 0 ++ [Line.blank])

/-- Whether a paginated request fails (the source throws `Invalid page`). -/
def isInvalidPage (r : Except String (List Line)) : Bool :=
  match r with
  | .error _ => true
  | .ok _ => false

/-- `allTasks.filter(task => task.status === 1)` of the stats view. -/
def closedTasks (ts : List TaskRecord) : List TaskRecord :=
  ts.filter fun t => t.status == 1

/-- `Total tasks: ${allTasks.length}` of the stats view. -/
def statsTotal (ts : List TaskRecord) : Nat :=
  ts.length

/-- JS floating-point division as used by the stats view, restricted to
the values that occur there: `b = 0` forces `a = 0` (the closed tasks are
a sublist of all tasks) and `0 / 0` is IEEE `NaN`, modelled as `none`. -/
def jsDiv (a b : Nat) : Option ℚ :=
  if b = 0 then none else some ((a : ℚ) / (b : ℚ))

/-- `x.toFixed(1)` for the non-negative rationals produced by the stats
view: one decimal digit, rounding half up, i.e. the digits of
`⌊x * 10 + 1/2⌋` (written on the numerator and denominator so that the
kernel can evaluate it). -/
def toFixed1 (q : ℚ) : String :=
  let n : Int := Int.fdiv (q.num * 20 + (q.den : Int)) (2 * (q.den : Int))
  toString (Int.fdiv n 10) ++ "." ++ toString (Int.emod n 10)

/-- The percentage printed by
`((closedTasks.length/allTasks.length)*100).toFixed(1)`: `NaN` (printed
as the string `"NaN"` by `toFixed`) when there are no tasks at all. -/
def closedPctStr (ts : List TaskRecord) : String :=
  match jsDiv (closedTasks ts).length (statsTotal ts) with
  | none => "NaN"
  | some q => toFixed1 (q * 100)

/-- The `✓ Closed tasks: ...` line of the stats view. -/
def closedStatsLine (ts : List TaskRecord) : String :=
  "✓ Closed tasks: " ++ toString (closedTasks ts).length
    ++ " (" ++ closedPctStr ts ++ "%)"

/-- `Math.max(...arr)` for the non-empty arrays the stats view builds. -/
def intMax : List Int → Int
  | [] => 0
  | x :: xs => xs.foldl max x

/-- Collects the results of the mapped child computations: the source
evaluates `task.tasks.map(childId => getDepth(childId, d + 1))` eagerly,
so the call finishes only when every child call finishes. -/
def optionList : List (Option Int) → Option (List Int)
  | [] => some []
  | none :: _ => none
  | some v :: xs =>
    match optionList xs with
    | none => none
    | some vs => some (v :: vs)

/-- The recursive `getDepth` helper of `checkvist_get_checklist_stats`.
The source has no cycle guard and no depth bound, so it is embedded with
an explicit `fuel` argument modelling the JS call stack: `none` means the
computation did not finish within `fuel` nested calls.  One source call
= one unit of fuel; on a cyclic `tasks` graph every fuel value returns
`none` (the JS original overflows the stack / never finishes). -/
def getDepth (ts : List TaskRecord) (fuel : Nat) (taskId : Int) (currentDepth : Int) : Option Int :=
  match fuel with
  | 0 => none
  | f + 1 =>
    match taskMapGet ts taskId with
    | none => some currentDepth
    | some task =>
      if task.tasks.isEmpty then some currentDepth
      else
        match optionList (task.tasks.map fun childId => getDepth ts f childId (currentDepth + 1)) with
        | none => none
        | some childDepths => some (intMax childDepths)

/-- `getDepth` reaches a result for the start id, with some finite call
depth (true of every terminating run of the source). -/
def GetDepthTerminates (ts : List TaskRecord) (taskId : Int) : Prop :=
  ∃ fuel, (getDepth ts fuel taskId 0).isSome

/-- Modelled from the words of the reachability claims: the ids reachable
from a root by following `tasks` links through the index, descending only
while `depth < maxDepth`, with no status filtering.  Used to compare the
traversals of the different views. -/
def specReachableIds (ts : List TaskRecord) (maxDepth : Int) (taskId : Int)
    (depth : Nat) : List Int :=
  match taskMapGet ts taskId with
  | none => []
  | some task =>
    if h : (depth : Int) < maxDepth ∧ task.tasks ≠ [] then
      task.id :: task.tasks.flatMap (fun c => specReachableIds ts maxDepth c (depth + 1))
    else
      [task.id]
termination_by (maxDepth - (depth : Int)).toNat
decreasing_by omega

/-- The lines of a paginated response, empty when the page was rejected. -/
def pageLines (r : Except String (List Line)) : List Line :=
  match r with
  | .ok body => body
  | .error _ => []

/-- The concatenation of all pages `1..totalPages` of the paginated view
in ultra-compact mode (the union the pagination-completeness property
quantifies over). -/
def allPagesBody (ts : List TaskRecord) (maxDepth : Int) : List Line :=
  (List.range (totalPages ts)).flatMap fun k =>
    pageLines (checkvist_get_tasks_paginated ts true true maxDepth ((k : Int) + 1))

/-- An explicit tree of task records, used to say when a flat collection
is a well-formed forest (each node's `tasks` list holds exactly the ids
of its child nodes). -/
inductive TaskTree where
  | node (t : TaskRecord) (cs : List TaskTree)

/-- The record at the root of a tree. -/
def rootRec : TaskTree → TaskRecord
  | .node t _ => t

mutual

/-- All records of a tree, in depth-first pre-order. -/
def treeFlat : TaskTree → List TaskRecord
  | .node t cs => t :: forestFlat cs

/-- All records of a forest, in depth-first pre-order. -/
def forestFlat : List TaskTree → List TaskRecord
  | [] => []
  | c :: cs => treeFlat c ++ forestFlat cs

end

mutual

/-- Height of a tree: 0 for a leaf, one more than the tallest child
otherwise. -/
def treeHeight : TaskTree → Nat
  | .node _ cs =>
    match cs with
    | [] => 0
    | _ :: _ => 1 + forestHeight cs

/-- Maximum height over the trees of a forest. -/
def forestHeight : List TaskTree → Nat
  | [] => 0
  | c :: cs => max (treeHeight c) (forestHeight cs)

end

mutual

/-- The tree correctly describes the collection: each node's record is
what the index returns for its id and its `tasks` list is exactly the
ids of its children, recursively. -/
def treeOk (ts : List TaskRecord) : TaskTree → Bool
  | .node t cs =>
    decide (taskMapGet ts t.id = some t) &&
    decide (t.tasks = cs.map fun c => (rootRec c).id) &&
    forestOk ts cs

/-- `treeOk` for every tree of a forest. -/
def forestOk (ts : List TaskRecord) : List TaskTree → Bool
  | [] => true
  | c :: cs => treeOk ts c && forestOk ts cs

end

/-- Test fixture: a record with only the structural fields set. -/
def mkTask (id parent_id : Int) (content : String) (status : Int)
    (tasks : List Int) : TaskRecord :=
  { id := id, parent_id := parent_id, content := content, status := status,
    tasks := tasks, due := none, priority := none, tags_as_text := none, notes := [] }

/-- Fixture: a single task whose children list contains itself. -/
def cycTasks : List TaskRecord := [mkTask 1 0 "self-referential" 0 [1]]

/-- Fixture: closed top-level task 1 with an open child 2. -/
def prunedTasks : List TaskRecord :=
  [mkTask 1 0 "closed root" 1 [2], mkTask 2 1 "open child" 0 []]

/-- Fixture: a record that is neither top-level nor referenced by any
other record (the index cannot reach it from the top-level roots). -/
def orphanTasks : List TaskRecord := [mkTask 1 5 "orphan" 0 []]

/-- Fixture: open top-level task 1 with a single closed child 2. -/
def chainTasks : List TaskRecord :=
  [mkTask 1 0 "a" 0 [2], mkTask 2 1 "b" 1 []]

/-- The forest witnessing that `chainTasks` is a well-formed forest. -/
def chainForest : List TaskTree :=
  [TaskTree.node (mkTask 1 0 "a" 0 [2]) [TaskTree.node (mkTask 2 1 "b" 1 []) []]]

/-- A rank function that decreases along the children of `chainTasks`. -/
def chainRank (i : Int) : Nat := if i = 1 then 1 else 0

/-- Fixture: a single invalidated (status 2) top-level task. -/
def invalidatedOnly : List TaskRecord := [mkTask 1 0 "t" 2 []]

/-- Fixture: the same single task, but open (status 0). -/
def openOnly : List TaskRecord := [mkTask 1 0 "t" 0 []]

theorem taskLineIds_nil : taskLineIds [] = [] := rfl

theorem taskLineIds_cons_task (s : String) (i : Int) (ls : List Line) :
    taskLineIds (Line.task s i :: ls) = i :: taskLineIds ls := rfl

theorem taskLineIds_cons_note (s : String) (ls : List Line) :
    taskLineIds (Line.note s :: ls) = taskLineIds ls := rfl

theorem taskLineIds_cons_noteMore (s : String) (ls : List Line) :
    taskLineIds (Line.noteMore s :: ls) = taskLineIds ls := rfl

theorem taskLineIds_cons_marker (s : String) (ls : List Line) :
    taskLineIds (Line.marker s :: ls) = taskLineIds ls := rfl

theorem taskLineIds_cons_blank (ls : List Line) :
    taskLineIds (Line.blank :: ls) = taskLineIds ls := rfl

theorem taskLineIds_append (a b : List Line) :
    taskLineIds (a ++ b) = taskLineIds a ++ taskLineIds b :=
  List.filterMap_append a b _

theorem taskLineIds_noteMap {α : Type} (l : List α) (f : α → String) :
    taskLineIds (l.map fun c => Line.note (f c)) = [] := by
  induction l with
  | nil => rfl
  | cons a l ih => simpa [taskLineIds] using ih

theorem taskLineIds_flatMap {α : Type} (l : List α) (f : α → List Line) :
    taskLineIds (l.flatMap f) = l.flatMap fun a => taskLineIds (f a) := by
  induction l with
  | nil => rfl
  | cons a l ih => simp [List.flatMap_cons, taskLineIds_append, ih]

theorem countMarkers_nil : countMarkers [] = 0 := rfl

theorem countMarkers_cons_task (s : String) (i : Int) (ls : List Line) :
    countMarkers (Line.task s i :: ls) = countMarkers ls := rfl

theorem countMarkers_cons_note (s : String) (ls : List Line) :
    countMarkers (Line.note s :: ls) = countMarkers ls := rfl

theorem countMarkers_cons_noteMore (s : String) (ls : List Line) :
    countMarkers (Line.noteMore s :: ls) = countMarkers ls := rfl

theorem countMarkers_cons_marker (s : String) (ls : List Line) :
    countMarkers (Line.marker s :: ls) = countMarkers ls + 1 := by
  simp [countMarkers, List.filter_cons]

theorem countMarkers_append (a b : List Line) :
    countMarkers (a ++ b) = countMarkers a + countMarkers b := by
  simp [countMarkers, List.filter_append]

theorem countMarkers_noteMap {α : Type} (l : List α) (f : α → String) :
    countMarkers (l.map fun c => Line.note (f c)) = 0 := by
  induction l with
  | nil => rfl
  | cons a l ih => simpa [countMarkers, List.filter_cons] using ih

/-- A successful map lookup returns a record of the collection whose id is
the looked-up id. -/
theorem taskMapGet_eq_some {ts : List TaskRecord} {i : Int} {t : TaskRecord}
    (h : taskMapGet ts i = some t) : t ∈ ts ∧ t.id = i := by
  unfold taskMapGet at h
  have hm := List.mem_of_find?_eq_some h
  have hp := List.find?_some h
  rw [List.mem_reverse] at hm
  simp only [beq_iff_eq] at hp
  exact ⟨hm, hp⟩

/-- Rewriting every record's status commutes with map lookup (the status
rewrite keeps ids). -/
theorem taskMapGet_map_status (ts : List TaskRecord) (g : TaskRecord → Int) (i : Int) :
    taskMapGet (ts.map fun t => { t with status := g t }) i =
      (taskMapGet ts i).map fun t => { t with status := g t } := by
  unfold taskMapGet
  rw [← List.map_reverse, List.find?_map]
  rfl

/-- The paginated formatter renders, in every mode, exactly the reachable
ids: its traversal never consults the status. -/
theorem pagIds_eq_reach (ts : List TaskRecord) (cm u : Bool) (md : Int)
    (i : Int) (d : Nat) :
    taskLineIds (formatTaskPaginated ts cm u md i d) = specReachableIds ts md i d := by
  induction i, d using formatTaskPaginated.induct ts cm u md with
  | case1 i d hl =>
    rw [formatTaskPaginated.eq_def, specReachableIds.eq_def, hl]
    rfl
  | case2 i d task hl hu hrec ih =>
    subst hu
    rw [formatTaskPaginated.eq_def, specReachableIds.eq_def, hl]
    simp [dif_pos hrec, taskLineIds_cons_task, taskLineIds_flatMap]
    exact List.flatMap_congr fun c _ => ih c
  | case3 i d task hl hu hrec =>
    subst hu
    rw [formatTaskPaginated.eq_def, specReachableIds.eq_def, hl]
    simp [dif_neg hrec, taskLineIds_cons_task, taskLineIds_nil]
  | case4 i d task hl hu hc hrec ih =>
    have hu2 : u = false := eq_false_of_ne_true hu
    subst hu2; subst hc
    rw [formatTaskPaginated.eq_def, specReachableIds.eq_def, hl]
    simp [dif_pos hrec, taskLineIds_cons_task, taskLineIds_flatMap]
    exact List.flatMap_congr fun c _ => ih c
  | case5 i d task hl hu hc hrec hmark =>
    have hu2 : u = false := eq_false_of_ne_true hu
    subst hu2; subst hc
    rw [formatTaskPaginated.eq_def, specReachableIds.eq_def, hl]
    simp [dif_neg hrec, if_pos hmark, taskLineIds_cons_task, taskLineIds_cons_marker, taskLineIds_nil]
  | case6 i d task hl hu hc hrec hmark =>
    have hu2 : u = false := eq_false_of_ne_true hu
    subst hu2; subst hc
    rw [formatTaskPaginated.eq_def, specReachableIds.eq_def, hl]
    simp [dif_neg hrec, if_neg hmark, taskLineIds_cons_task, taskLineIds_nil]
  | case7 i d task hl hu hc hrec ih =>
    have hu2 : u = false := eq_false_of_ne_true hu
    have hc2 : cm = false := eq_false_of_ne_true hc
    subst hu2; subst hc2
    rw [formatTaskPaginated.eq_def, specReachableIds.eq_def, hl]
    simp [dif_pos hrec, taskLineIds_cons_task, taskLineIds_flatMap]
    exact List.flatMap_congr fun c _ => ih c
  | case8 i d task hl hu hc hrec hmark =>
    have hu2 : u = false := eq_false_of_ne_true hu
    have hc2 : cm = false := eq_false_of_ne_true hc
    subst hu2; subst hc2
    rw [formatTaskPaginated.eq_def, specReachableIds.eq_def, hl]
    simp [dif_neg hrec, if_pos hmark, taskLineIds_cons_task, taskLineIds_cons_marker, taskLineIds_nil]
  | case9 i d task hl hu hc hrec hmark =>
    have hu2 : u = false := eq_false_of_ne_true hu
    have hc2 : cm = false := eq_false_of_ne_true hc
    subst hu2; subst hc2
    rw [formatTaskPaginated.eq_def, specReachableIds.eq_def, hl]
    simp [dif_neg hrec, if_neg hmark, taskLineIds_cons_task, taskLineIds_nil]

/-- With `includeClosed = true` the summary formatter also renders exactly
the reachable ids, in both compact and full mode (markers and note lines
are not task lines). -/
theorem sumIds_eq_reach (ts : List TaskRecord) (cm : Bool) (md : Int)
    (i : Int) (d : Nat) :
    taskLineIds (formatTaskSummary ts true cm md i d) = specReachableIds ts md i d := by
  induction i, d using formatTaskSummary.induct ts true cm md with
  | case1 i d hl =>
    rw [formatTaskSummary.eq_def, specReachableIds.eq_def, hl]
    rfl
  | case2 i d task hl hskip =>
    simp at hskip
  | case3 i d task hl hskip hc hrec ih =>
    subst hc
    rw [formatTaskSummary.eq_def, specReachableIds.eq_def, hl]
    simp [dif_pos hrec, taskLineIds_cons_task, taskLineIds_flatMap, taskLineIds_nil]
    exact List.flatMap_congr fun c _ => ih c
  | case4 i d task hl hskip hc hrec =>
    subst hc
    rw [formatTaskSummary.eq_def, specReachableIds.eq_def, hl]
    simp [dif_neg hrec, taskLineIds_cons_task, taskLineIds_nil]
  | case5 i d task hl hskip hc hrec ih =>
    have hc2 : cm = false := eq_false_of_ne_true hc
    subst hc2
    rw [formatTaskSummary.eq_def, specReachableIds.eq_def, hl]
    simp [dif_pos hrec, taskLineIds_cons_task, taskLineIds_flatMap, taskLineIds_append,
      taskLineIds_noteMap, taskLineIds_nil]
    exact List.flatMap_congr fun c _ => ih c
  | case6 i d task hl hskip hc hrec hmark =>
    have hc2 : cm = false := eq_false_of_ne_true hc
    subst hc2
    rw [formatTaskSummary.eq_def, specReachableIds.eq_def, hl]
    simp [dif_neg hrec, if_pos hmark, taskLineIds_cons_task, taskLineIds_append,
      taskLineIds_noteMap, taskLineIds_cons_marker, taskLineIds_nil]
  | case7 i d task hl hskip hc hrec hmark =>
    have hc2 : cm = false := eq_false_of_ne_true hc
    subst hc2
    rw [formatTaskSummary.eq_def, specReachableIds.eq_def, hl]
    simp [dif_neg hrec, if_neg hmark, taskLineIds_cons_task, taskLineIds_append,
      taskLineIds_noteMap, taskLineIds_nil]

/-- The reachable-id traversal never depends on statuses. -/
theorem reach_map_status (ts : List TaskRecord) (g : TaskRecord → Int) (md : Int)
    (i : Int) (d : Nat) :
    specReachableIds (ts.map fun t => { t with status := g t }) md i d =
      specReachableIds ts md i d := by
  induction i, d using specReachableIds.induct ts md with
  | case1 i d hl =>
    rw [specReachableIds.eq_def, specReachableIds.eq_def, taskMapGet_map_status, hl]
    rfl
  | case2 i d task hl hrec ih =>
    rw [specReachableIds.eq_def (ts.map _), specReachableIds.eq_def ts,
      taskMapGet_map_status, hl]
    simp [hrec]
    exact List.flatMap_congr fun c _ => ih c
  | case3 i d task hl hrec =>
    rw [specReachableIds.eq_def (ts.map _), specReachableIds.eq_def ts,
      taskMapGet_map_status, hl]
    simp [hrec]

/-- Walking a list one element per index slice is walking the list. -/
theorem range_take_one {α β : Type} (l : List α) (f : α → List β) :
    (List.range l.length).flatMap (fun k => ((l.drop k).take 1).flatMap f) = l.flatMap f := by
  induction l with
  | nil => rfl
  | cons a l ih =>
    rw [List.length_cons, List.range_succ_eq_map, List.flatMap_cons, List.flatMap_map]
    have h3 : ((List.range l.length).flatMap
        fun k => (((a :: l).drop k.succ).take 1).flatMap f) = l.flatMap f := by
      rw [← ih]
      exact List.flatMap_congr fun k _ => by simp
    rw [h3]
    simp [List.flatMap_cons]

/-- A tree of a forest is at most as tall as the forest. -/
theorem treeHeight_le_forestHeight {c : TaskTree} {f : List TaskTree} (h : c ∈ f) :
    treeHeight c ≤ forestHeight f := by
  induction f with
  | nil => cases h
  | cons a f ih =>
    rcases List.mem_cons.mp h with rfl | h2
    · simp [forestHeight]
    · calc treeHeight c ≤ forestHeight f := ih h2
        _ ≤ forestHeight (a :: f) := by simp [forestHeight]

/-- Rendering a well-formed forest in full mode with `includeClosed =
true` and a depth budget at least the height of every tree yields exactly
one task line per record, in depth-first pre-order. -/
theorem forest_render_ids (ts : List TaskRecord) (md : Int) :
    ∀ (n : Nat) (f : List TaskTree) (d : Nat), sizeOf f = n →
      forestOk ts f = true →
      (∀ c ∈ f, (d : Int) + treeHeight c ≤ md) →
      (f.flatMap fun c => taskLineIds (formatTaskSummary ts true false md (rootRec c).id d)) =
        (forestFlat f).map TaskRecord.id := by
  intro n
  induction n using Nat.strong_induction_on with
  | _ n ih =>
    intro f d hsz hok hh
    cases f with
    | nil => simp [forestFlat]
    | cons hd rest =>
      cases hd with
      | node t cs =>
        subst hsz
        simp only [forestOk, treeOk, Bool.and_eq_true, decide_eq_true_eq] at hok
        obtain ⟨⟨⟨hlook, htasks⟩, hcs⟩, hrest⟩ := hok
        have hsz1 : sizeOf cs < sizeOf (TaskTree.node t cs :: rest) := by
          simp only [List.cons.sizeOf_spec, TaskTree.node.sizeOf_spec]
          omega
        have hsz2 : sizeOf rest < sizeOf (TaskTree.node t cs :: rest) := by
          simp only [List.cons.sizeOf_spec, TaskTree.node.sizeOf_spec]
          omega
        have htail := ih (sizeOf rest) hsz2 rest d rfl hrest
          (fun c hc => hh c (List.mem_cons_of_mem _ hc))
        rw [List.flatMap_cons, htail]
        have hhead :
            taskLineIds (formatTaskSummary ts true false md (rootRec (TaskTree.node t cs)).id d)
              = (treeFlat (TaskTree.node t cs)).map TaskRecord.id := by
          rw [formatTaskSummary.eq_def]
          simp only [rootRec]
          rw [hlook]
          clear htail
          revert htasks hcs hsz1 hh ih
          cases cs with
          | nil =>
            intro hh2 ih2 hcs2 htasks2 hsz12
            have ht0 : t.tasks = [] := by simpa using htasks2
            simp [ht0, taskLineIds_cons_task, taskLineIds_noteMap, treeFlat, forestFlat,
              taskLineIds_append, taskLineIds_nil]
          | cons c0 cs0 =>
            intro hh2 ih2 hcs2 htasks2 hsz12
            have hne : t.tasks ≠ [] := by
              rw [htasks2]
              simp
            have hheight := hh2 (TaskTree.node t (c0 :: cs0)) (List.mem_cons_self _ _)
            rw [treeHeight] at hheight
            have hlt : (d : Int) < md := by
              push_cast at hheight
              omega
            have hchild := ih2 (sizeOf (c0 :: cs0)) hsz12 (c0 :: cs0) (d + 1) rfl hcs2
              (by
                intro c hc
                have h1 : treeHeight c ≤ forestHeight (c0 :: cs0) := treeHeight_le_forestHeight hc
                push_cast at hheight ⊢
                omega)
            simp only [dif_pos (And.intro hlt hne), htasks2, List.flatMap_map]
            simp [hlt, taskLineIds_cons_task, taskLineIds_append, taskLineIds_noteMap,
              taskLineIds_flatMap, Function.comp, treeFlat]
            simpa [List.flatMap_cons] using hchild
        rw [hhead]
        simp [treeFlat, forestFlat]

/-- Collecting mapped `Option` results succeeds when every element's
computation succeeds. -/
theorem optionList_isSome {α : Type} (l : List α) (f : α → Option Int)
    (h : ∀ x ∈ l, (f x).isSome) : (optionList (l.map f)).isSome := by
  induction l with
  | nil => simp [optionList]
  | cons a l ih =>
    obtain ⟨b, hb⟩ := Option.isSome_iff_exists.mp (h a (List.mem_cons_self a l))
    obtain ⟨bs, hbs⟩ := Option.isSome_iff_exists.mp
      (ih fun x hx => h x (List.mem_cons_of_mem a hx))
    simp [optionList, hb, hbs]

/-- On the one-task cycle, `getDepth` exhausts any amount of fuel: the
source recursion never returns. -/
theorem getDepth_cyc_none : ∀ (fuel : Nat) (d : Int), getDepth cycTasks fuel 1 d = none := by
  intro fuel
  induction fuel with
  | zero =>
    intro d
    rfl
  | succ f ih =>
    intro d
    rw [getDepth]
    have hl : taskMapGet cycTasks 1 = some (mkTask 1 0 "self-referential" 0 [1]) := by rfl
    rw [hl]
    simp [mkTask, optionList, ih (d + 1)]

/-- `getDepth` reaches a result whenever some rank function decreases
along every child edge of the collection and the fuel exceeds the rank of
the start id. -/
theorem getDepth_isSome_of_rank (ts : List TaskRecord) (rank : Int → Nat)
    (hr : ∀ t ∈ ts, ∀ c ∈ t.tasks, rank c < rank t.id) :
    ∀ (fuel : Nat) (i : Int) (d : Int), rank i < fuel → (getDepth ts fuel i d).isSome := by
  intro fuel
  induction fuel with
  | zero =>
    intro i d h
    omega
  | succ f ih =>
    intro i d h
    rw [getDepth]
    cases hl : taskMapGet ts i with
    | none => simp
    | some task =>
      by_cases he : task.tasks.isEmpty
      · simp [he]
      · have hmem := taskMapGet_eq_some hl
        have hall : ∀ c ∈ task.tasks, (getDepth ts f c (d + 1)).isSome := by
          intro c hc
          apply ih
          have h2 := hr task hmem.1 c hc
          rw [hmem.2] at h2
          omega
        obtain ⟨v, hv⟩ := Option.isSome_iff_exists.mp (optionList_isSome _ _ hall)
        simp [he, hv]

/-- C2 counterexample: on the collection whose single task lists itself as
a child, the source `getDepth` never returns a value no matter how much
call depth it is given — it tracks no visited ids, so it is not a total
function on cyclic collections. -/
theorem getDepth_diverges_on_cycle : ¬ GetDepthTerminates cycTasks 1 := by
  rintro ⟨fuel, hf⟩
  rw [getDepth_cyc_none fuel 0] at hf
  simp at hf

/-- C2 (amended): the statistics depth recursion terminates on every
collection whose children references admit a decreasing rank function (in
particular on every acyclic forest); the source has no visited-id
tracking, so on a cyclic collection it does not terminate. -/
theorem getDepth_terminates_of_rank (ts : List TaskRecord) (rank : Int → Nat)
    (hr : ∀ t ∈ ts, ∀ c ∈ t.tasks, rank c < rank t.id) (i : Int) :
    GetDepthTerminates ts i :=
  ⟨rank i + 1, getDepth_isSome_of_rank ts rank hr (rank i + 1) i 0 (Nat.lt_succ_self _)⟩

/-- Witness for the amended C2 theorem at the two-task chain `1 → 2`. -/
theorem getDepth_terminates_of_rank_witness :
    (∀ t ∈ chainTasks, ∀ c ∈ t.tasks, chainRank c < chainRank t.id) ∧
      GetDepthTerminates chainTasks 1 :=
  ⟨by decide, getDepth_terminates_of_rank chainTasks chainRank (by decide) 1⟩

/-- C6: on the empty collection the stats view raises nothing (the
computation is total) but its closed fraction is the JS float `0/0`,
which `toFixed(1)` prints as `NaN` — the line reads `(NaN%)`, not the
`0%` the specification requires. -/
theorem closed_pct_empty_is_nan :
    closedPctStr [] = "NaN" ∧ closedStatsLine [] = "✓ Closed tasks: 0 (NaN%)" :=
  ⟨rfl, rfl⟩

/-- C3: the paginated view fails exactly when the page number lies outside
`[1, totalPages]` where `totalPages = ceil(topLevelCount / pageSize)` with
`pageSize = 1`; it never clamps, so page 0 and page `totalPages + 1` are
both rejected. -/
theorem paginated_invalid_page_iff (ts : List TaskRecord) (cm u : Bool) (md p : Int) :
    isInvalidPage (checkvist_get_tasks_paginated ts cm u md p) = true ↔
      (p < 1 ∨ p > (totalPages ts : Int)) := by
  unfold checkvist_get_tasks_paginated isInvalidPage
  split_ifs with h
  · simpa using h
  · simpa using h

/-- Witness for C3: for the two-record fixture with one top-level task,
pages 0 and 2 (= totalPages + 1) are rejected, page 1 is served. -/
theorem paginated_invalid_page_iff_witness :
    isInvalidPage (checkvist_get_tasks_paginated chainTasks true false 2 0) = true ∧
    isInvalidPage (checkvist_get_tasks_paginated chainTasks true false 2 2) = true ∧
    ¬ isInvalidPage (checkvist_get_tasks_paginated chainTasks true false 2 1) = true := by
  refine ⟨?_, ?_, ?_⟩
  · exact (paginated_invalid_page_iff chainTasks true false 2 0).mpr (by decide)
  · exact (paginated_invalid_page_iff chainTasks true false 2 2).mpr (by decide)
  · intro hbad
    have h2 := (paginated_invalid_page_iff chainTasks true false 2 1).mp hbad
    revert h2
    decide

/-- C8 counterexample: the summary full-mode render of a single
invalidated task is byte-identical to that of the same task open — the
summary full branch maps statuses 0 and 2 to the same glyph, so the three
statuses are not distinguished in every full-mode render. -/
theorem summary_full_conflates_statuses :
    (mkTask 1 0 "t" 2 []).status ≠ (mkTask 1 0 "t" 0 []).status ∧
    formatTaskSummary invalidatedOnly true false 99 1 0 =
      formatTaskSummary openOnly true false 99 1 0 := by
  constructor
  · decide
  · simp [formatTaskSummary, invalidatedOnly, openOnly, mkTask, taskMapGet,
      summaryFullGlyph, summaryDueSuffix, summaryPrioritySuffix, summaryTagsSuffix, indentOf]

/-- C8 (amended): the task-tree and paginated full-mode status glyphs
distinguish all three statuses, while the summary full-mode glyph only
separates closed from not-closed: open (0) and invalidated (2) collapse
to the same glyph. -/
theorem full_mode_glyphs :
    (treeFullGlyph 0 ≠ treeFullGlyph 1 ∧ treeFullGlyph 0 ≠ treeFullGlyph 2 ∧
      treeFullGlyph 1 ≠ treeFullGlyph 2) ∧
    (paginatedFullGlyph 0 ≠ paginatedFullGlyph 1 ∧ paginatedFullGlyph 0 ≠ paginatedFullGlyph 2 ∧
      paginatedFullGlyph 1 ≠ paginatedFullGlyph 2) ∧
    summaryFullGlyph 2 = summaryFullGlyph 0 ∧
    (∀ s : Int, summaryFullGlyph s = "[✓]" ∨ summaryFullGlyph s = "[ ]") := by
  refine ⟨⟨by decide, by decide, by decide⟩, ⟨by decide, by decide, by decide⟩, by decide, ?_⟩
  intro s
  unfold summaryFullGlyph
  split_ifs <;> simp

/-- C1 counterexample: the paginated view applies no closed filter — page
1 over a closed top-level task with an open child renders both the closed
task and its descendant, so a render the claim covers does show a
descendant of a closed-status task. -/
theorem paginated_renders_closed_descendant :
    taskMapGet prunedTasks 1 = some (mkTask 1 0 "closed root" 1 [2]) ∧
    (mkTask 1 0 "closed root" 1 [2]).status = 1 ∧
    (2 : Int) ∈ (mkTask 1 0 "closed root" 1 [2]).tasks ∧
    taskLineIds (pageLines (checkvist_get_tasks_paginated prunedTasks true false 2 1)) =
      [1, 2] := by
  refine ⟨rfl, rfl, by decide, ?_⟩
  simp [checkvist_get_tasks_paginated, pageLines, totalPages, topLevelTasks, prunedTasks,
    mkTask, formatTaskPaginated, taskMapGet, taskLineIds, indentOf, compactGlyph,
    paginatedFullGlyph, fullDueSuffix, fullPrioritySuffix, fullTagsSuffix]

/-- C1 (amended): in the summary and task-tree renders with
`includeClosed = false`, a closed node contributes empty output and its
entire subtree is skipped; the paginated view accepts no `includeClosed`
input and never filters, rendering closed tasks and their descendants. -/
theorem closed_node_prunes_subtree (ts : List TaskRecord) (i : Int) (t : TaskRecord)
    (cm wn cm2 : Bool) (md : Int) (d : Nat)
    (hl : taskMapGet ts i = some t) (hc : t.status = 1) :
    formatTaskSummary ts false cm md i d = [] ∧
    formatTaskTree ts false wn cm2 md i d = [] := by
  constructor
  · rw [formatTaskSummary.eq_def, hl]
    simp [hc]
  · rw [formatTaskTree.eq_def, hl]
    simp [hc]

/-- Witness for the amended C1 theorem: the closed root of `prunedTasks`
renders nothing in either filtered view. -/
theorem closed_node_prunes_subtree_witness :
    taskMapGet prunedTasks 1 = some (mkTask 1 0 "closed root" 1 [2]) ∧
    (mkTask 1 0 "closed root" 1 [2]).status = 1 ∧
    (formatTaskSummary prunedTasks false false 99 1 0 = [] ∧
      formatTaskTree prunedTasks false false false 99 1 0 = []) :=
  ⟨rfl, rfl, closed_node_prunes_subtree prunedTasks 1 (mkTask 1 0 "closed root" 1 [2])
    false false false 99 0 rfl rfl⟩

/-- C10: the render functions are total Lean functions over arbitrary
well-typed collections (no exception path exists in the embedding); a
child id absent from the index contributes no output in any of the three
views, and a record with an empty (or absent, modelled as empty) children
list renders exactly its own task line. -/
theorem render_totality (ts : List TaskRecord) (i : Int) (wn cm cm2 cm3 u : Bool)
    (md : Int) (d : Nat) :
    (taskMapGet ts i = none →
      formatTaskSummary ts true cm md i d = [] ∧
      formatTaskTree ts true wn cm2 md i d = [] ∧
      formatTaskPaginated ts cm3 u md i d = []) ∧
    (∀ t, taskMapGet ts i = some t → t.tasks = [] →
      taskLineIds (formatTaskSummary ts true cm md i d) = [t.id] ∧
      taskLineIds (formatTaskTree ts true wn cm2 md i d) = [t.id] ∧
      taskLineIds (formatTaskPaginated ts cm3 u md i d) = [t.id]) := by
  constructor
  · intro hl
    refine ⟨?_, ?_, ?_⟩
    · rw [formatTaskSummary.eq_def, hl]
    · rw [formatTaskTree.eq_def, hl]
    · rw [formatTaskPaginated.eq_def, hl]
  · intro t hl ht
    have hcond : ¬((d : Int) < md ∧ t.tasks ≠ []) := by simp [ht]
    have hcond2 : ¬((d : Int) ≥ md ∧ t.tasks ≠ []) := by simp [ht]
    refine ⟨?_, ?_, ?_⟩
    · rw [formatTaskSummary.eq_def, hl]
      cases cm <;>
        simp [hcond, ht, taskLineIds_cons_task, taskLineIds_append, taskLineIds_noteMap,
          taskLineIds_nil]
    · rw [formatTaskTree.eq_def, hl]
      cases cm2 <;> cases wn <;>
        simp [hcond, hcond2, ht, taskLineIds_cons_task, taskLineIds_append,
          taskLineIds_noteMap, taskLineIds_nil, taskLineIds] <;>
        (intro a ha hmem
         rcases hmem with hmem | ⟨h2, rfl⟩
         · obtain ⟨c, hc, rfl⟩ := List.mem_map.mp (List.mem_of_mem_take hmem)
           rfl
         · rfl)
    · rw [formatTaskPaginated.eq_def, hl]
      cases u <;> cases cm3 <;>
        simp [hcond, hcond2, ht, taskLineIds_cons_task, taskLineIds_nil]

/-- Witness for C10: a missing id (99) renders nothing; the leaf record 2
of the chain fixture renders exactly its own line in all three views. -/
theorem render_totality_witness :
    (formatTaskSummary chainTasks true true 2 99 0 = [] ∧
      formatTaskTree chainTasks true true true 2 99 0 = [] ∧
      formatTaskPaginated chainTasks true false 2 99 0 = []) ∧
    (taskLineIds (formatTaskSummary chainTasks true true 2 2 0) = [2] ∧
      taskLineIds (formatTaskTree chainTasks true true true 2 2 0) = [2] ∧
      taskLineIds (formatTaskPaginated chainTasks true false 2 2 0) = [2]) :=
  ⟨(render_totality chainTasks 99 true true true true false 2 0).1 rfl,
    (render_totality chainTasks 2 true true true true false 2 0).2
      (mkTask 2 1 "b" 1 []) rfl rfl⟩

/-- C7 counterexample: in summary compact mode a node whose children lie
beyond the depth limit is rendered with no elision marker at all — the
children are silently dropped, contradicting the claim that every mode
appends a marker line. -/
theorem summary_compact_no_marker :
    (taskMapGet chainTasks 1).map TaskRecord.tasks = some [2] ∧
    formatTaskSummary chainTasks true true 0 1 0 = [Line.task "[ ] a [1]" 1] ∧
    countMarkers (formatTaskSummary chainTasks true true 0 1 0) = 0 := by
  have hbody : formatTaskSummary chainTasks true true 0 1 0 = [Line.task "[ ] a [1]" 1] := by
    simp [formatTaskSummary, chainTasks, mkTask, taskMapGet, indentOf, compactGlyph]
    rfl
  refine ⟨rfl, hbody, ?_⟩
  rw [hbody]
  rfl

/-- A list of note and "more notes" lines contains no marker and no task
line. -/
theorem lines_inert (ls : List Line)
    (h : ∀ a ∈ ls, (∃ s, a = Line.note s) ∨ ∃ s, a = Line.noteMore s) :
    countMarkers ls = 0 ∧ taskLineIds ls = [] := by
  induction ls with
  | nil => exact ⟨rfl, rfl⟩
  | cons a ls ih =>
    obtain ⟨h0, h1⟩ := ih fun x hx => h x (List.mem_cons_of_mem _ hx)
    rcases h a (List.mem_cons_self _ _) with ⟨s, rfl⟩ | ⟨s, rfl⟩
    · exact ⟨by rw [countMarkers_cons_note, h0], by rw [taskLineIds_cons_note, h1]⟩
    · exact ⟨by rw [countMarkers_cons_noteMore, h0], by rw [taskLineIds_cons_noteMore, h1]⟩

/-- The optional note block of the task-tree full mode contributes no
marker and no task line. -/
theorem treeNotes_inert (wn : Bool) (notes : List String) (ind : String) :
    countMarkers (if wn = true ∧ notes ≠ [] then
        (notes.take 2).map (fun c => Line.note (ind ++ "  💬 " ++ truncateContent c 150))
        ++ (if notes.length > 2 then
            [Line.noteMore (ind ++ "  ... (" ++ toString (notes.length - 2) ++ " more notes)")]
          else [])
      else []) = 0 ∧
    taskLineIds (if wn = true ∧ notes ≠ [] then
        (notes.take 2).map (fun c => Line.note (ind ++ "  💬 " ++ truncateContent c 150))
        ++ (if notes.length > 2 then
            [Line.noteMore (ind ++ "  ... (" ++ toString (notes.length - 2) ++ " more notes)")]
          else [])
      else []) = [] := by
  apply lines_inert
  intro a ha
  split_ifs at ha with h1 h2
  · rcases List.mem_append.mp ha with ha2 | ha2
    · obtain ⟨c, hc, rfl⟩ := List.mem_map.mp ha2
      exact Or.inl ⟨_, rfl⟩
    · rw [List.mem_singleton] at ha2
      exact Or.inr ⟨_, ha2⟩
  · rcases List.mem_append.mp ha with ha2 | ha2
    · obtain ⟨c, hc, rfl⟩ := List.mem_map.mp ha2
      exact Or.inl ⟨_, rfl⟩
    · cases ha2
  · cases ha

/-- C7 (amended): at every visited (not status-filtered) node, if
`d < maxDepth` the children are recursed in original order, appended
after the node's own marker-free lines; if `d ≥ maxDepth` and children
exist, exactly one elision marker is appended in the task-tree view (both
modes), the summary full mode, and the paginated compact and full modes,
while the summary compact mode and the paginated ultra-compact mode
append no marker at all. -/
theorem marker_behavior_by_mode (ts : List TaskRecord) (t : TaskRecord) (i : Int)
    (ic wn cm cm2 cm3 u : Bool) (md : Int) (d : Nat)
    (hl : taskMapGet ts i = some t)
    (hv : ic = true ∨ t.status ≠ 1) :
    ((d : Int) < md →
      (∃ self, formatTaskSummary ts ic cm md i d =
          self ++ t.tasks.flatMap (fun c => formatTaskSummary ts ic cm md c (d + 1)) ∧
        countMarkers self = 0 ∧ taskLineIds self = [t.id]) ∧
      (∃ self, formatTaskTree ts ic wn cm2 md i d =
          self ++ t.tasks.flatMap (fun c => formatTaskTree ts ic wn cm2 md c (d + 1)) ∧
        countMarkers self = 0 ∧ taskLineIds self = [t.id]) ∧
      (∃ self, formatTaskPaginated ts cm3 u md i d =
          self ++ t.tasks.flatMap (fun c => formatTaskPaginated ts cm3 u md c (d + 1)) ∧
        countMarkers self = 0 ∧ taskLineIds self = [t.id])) ∧
    (¬ (d : Int) < md → t.tasks ≠ [] →
      countMarkers (formatTaskSummary ts ic true md i d) = 0 ∧
      countMarkers (formatTaskSummary ts ic false md i d) = 1 ∧
      countMarkers (formatTaskTree ts ic wn cm2 md i d) = 1 ∧
      countMarkers (formatTaskPaginated ts cm3 false md i d) = 1 ∧
      countMarkers (formatTaskPaginated ts cm3 true md i d) = 0) := by
  have hskip : (!ic && t.status == 1) = false := by
    rcases hv with rfl | hs
    · simp
    · cases ic
      · simp [hs]
      · simp
  constructor
  · intro hdlt
    refine ⟨?_, ?_, ?_⟩
    · -- summary
      rw [formatTaskSummary.eq_def, hl]
      simp only [hskip, Bool.false_eq_true, if_false]
      by_cases hne : t.tasks = []
      · have hcond : ¬((d : Int) < md ∧ t.tasks ≠ []) := by simp [hne]
        cases cm
        · rw [if_neg (by simp : ¬(false = true)), dif_neg hcond, if_neg (by simp [hne])]
          refine ⟨[Line.task (indentOf d ++ summaryFullGlyph t.status ++ " " ++ t.content
              ++ summaryDueSuffix t.due ++ summaryPrioritySuffix t.priority
              ++ summaryTagsSuffix t.tags_as_text ++ " [ID: " ++ toString t.id ++ "]") t.id]
              ++ t.notes.map (fun c => Line.note (indentOf d ++ "  📝 " ++ c)),
            by rw [hne, List.flatMap_nil, List.append_nil]; rfl, ?_, ?_⟩
          · simp [countMarkers_append, countMarkers_cons_task, countMarkers_nil,
              countMarkers_noteMap]
          · simp [taskLineIds_append, taskLineIds_cons_task, taskLineIds_nil,
              taskLineIds_noteMap]
        · rw [if_pos rfl, dif_neg hcond]
          exact ⟨[Line.task (indentOf d ++ "[" ++ compactGlyph t.status ++ "] " ++ t.content
              ++ " [" ++ toString t.id ++ "]") t.id],
            by rw [hne, List.flatMap_nil, List.append_nil], rfl, rfl⟩
      · cases cm
        · rw [if_neg (by simp : ¬(false = true)), dif_pos (And.intro hdlt hne)]
          refine ⟨[Line.task (indentOf d ++ summaryFullGlyph t.status ++ " " ++ t.content
              ++ summaryDueSuffix t.due ++ summaryPrioritySuffix t.priority
              ++ summaryTagsSuffix t.tags_as_text ++ " [ID: " ++ toString t.id ++ "]") t.id]
              ++ t.notes.map (fun c => Line.note (indentOf d ++ "  📝 " ++ c)), rfl, ?_, ?_⟩
          · simp [countMarkers_append, countMarkers_cons_task, countMarkers_nil,
              countMarkers_noteMap]
          · simp [taskLineIds_append, taskLineIds_cons_task, taskLineIds_nil,
              taskLineIds_noteMap]
        · rw [if_pos rfl, dif_pos (And.intro hdlt hne)]
          exact ⟨[Line.task (indentOf d ++ "[" ++ compactGlyph t.status ++ "] " ++ t.content
              ++ " [" ++ toString t.id ++ "]") t.id], rfl, rfl, rfl⟩
    · -- task tree
      rw [formatTaskTree.eq_def, hl]
      simp only [hskip, Bool.false_eq_true, if_false]
      by_cases hne : t.tasks = []
      · have hcond : ¬((d : Int) < md ∧ t.tasks ≠ []) := by simp [hne]
        have hcond2 : ¬((d : Int) ≥ md ∧ t.tasks ≠ []) := by simp [hne]
        cases cm2
        · rw [if_neg (by simp : ¬(false = true)), dif_neg hcond, if_neg hcond2]
          refine ⟨[Line.task (indentOf d ++ treeFullGlyph t.status ++ " " ++ t.content
              ++ fullDueSuffix t.due ++ fullPrioritySuffix t.priority
              ++ fullTagsSuffix t.tags_as_text ++ " [" ++ toString t.id ++ "]") t.id]
              ++ (if wn = true ∧ t.notes ≠ [] then
                  (t.notes.take 2).map
                    (fun c => Line.note (indentOf d ++ "  💬 " ++ truncateContent c 150))
                  ++ (if t.notes.length > 2 then
                      [Line.noteMore (indentOf d ++ "  ... (" ++ toString (t.notes.length - 2)
                        ++ " more notes)")]
                    else [])
                else []),
            by rw [hne, List.flatMap_nil, List.append_nil]; rfl, ?_, ?_⟩
          · simp only [countMarkers_append, countMarkers_cons_task, countMarkers_nil,
              (treeNotes_inert wn t.notes (indentOf d)).1]
          · simp only [taskLineIds_append, taskLineIds_cons_task, taskLineIds_nil,
              (treeNotes_inert wn t.notes (indentOf d)).2, List.append_nil]
        · rw [if_pos rfl, dif_neg hcond, if_neg hcond2]
          exact ⟨[Line.task (indentOf d ++ toString t.id ++ ": "
              ++ truncateContent t.content 50) t.id],
            by rw [hne, List.flatMap_nil, List.append_nil], rfl, rfl⟩
      · cases cm2
        · rw [if_neg (by simp : ¬(false = true)), dif_pos (And.intro hdlt hne)]
          refine ⟨[Line.task (indentOf d ++ treeFullGlyph t.status ++ " " ++ t.content
              ++ fullDueSuffix t.due ++ fullPrioritySuffix t.priority
              ++ fullTagsSuffix t.tags_as_text ++ " [" ++ toString t.id ++ "]") t.id]
              ++ (if wn = true ∧ t.notes ≠ [] then
                  (t.notes.take 2).map
                    (fun c => Line.note (indentOf d ++ "  💬 " ++ truncateContent c 150))
                  ++ (if t.notes.length > 2 then
                      [Line.noteMore (indentOf d ++ "  ... (" ++ toString (t.notes.length - 2)
                        ++ " more notes)")]
                    else [])
                else []), rfl, ?_, ?_⟩
          · simp only [countMarkers_append, countMarkers_cons_task, countMarkers_nil,
              (treeNotes_inert wn t.notes (indentOf d)).1]
          · simp only [taskLineIds_append, taskLineIds_cons_task, taskLineIds_nil,
              (treeNotes_inert wn t.notes (indentOf d)).2, List.append_nil]
        · rw [if_pos rfl, dif_pos (And.intro hdlt hne)]
          exact ⟨[Line.task (indentOf d ++ toString t.id ++ ": "
              ++ truncateContent t.content 50) t.id], rfl, rfl, rfl⟩
    · -- paginated
      rw [formatTaskPaginated.eq_def, hl]
      dsimp only
      by_cases hne : t.tasks = []
      · have hcond : ¬((d : Int) < md ∧ t.tasks ≠ []) := by simp [hne]
        have hcond2 : ¬((d : Int) ≥ md ∧ t.tasks ≠ []) := by simp [hne]
        cases u
        · cases cm3
          · rw [if_neg (by simp : ¬(false = true)), if_neg (by simp : ¬(false = true)),
              dif_neg hcond, if_neg hcond2]
            exact ⟨[Line.task (indentOf d ++ paginatedFullGlyph t.status ++ " " ++ t.content
                ++ fullDueSuffix t.due ++ fullPrioritySuffix t.priority
                ++ fullTagsSuffix t.tags_as_text ++ " [ID: " ++ toString t.id ++ "]") t.id],
              by rw [hne, List.flatMap_nil, List.append_nil], rfl, rfl⟩
          · rw [if_neg (by simp : ¬(false = true)), if_pos rfl, dif_neg hcond, if_neg hcond2]
            exact ⟨[Line.task (indentOf d ++ "[" ++ compactGlyph t.status ++ "] " ++ t.content
                ++ " [" ++ toString t.id ++ "]") t.id],
              by rw [hne, List.flatMap_nil, List.append_nil], rfl, rfl⟩
        · rw [if_pos rfl, dif_neg hcond]
          exact ⟨[Line.task (indentOf d ++ toString t.id ++ ": "
              ++ truncateContent t.content 40) t.id],
            by rw [hne, List.flatMap_nil, List.append_nil], rfl, rfl⟩
      · cases u
        · cases cm3
          · rw [if_neg (by simp : ¬(false = true)), if_neg (by simp : ¬(false = true)),
              dif_pos (And.intro hdlt hne)]
            exact ⟨[Line.task (indentOf d ++ paginatedFullGlyph t.status ++ " " ++ t.content
                ++ fullDueSuffix t.due ++ fullPrioritySuffix t.priority
                ++ fullTagsSuffix t.tags_as_text ++ " [ID: " ++ toString t.id ++ "]") t.id],
              rfl, rfl, rfl⟩
          · rw [if_neg (by simp : ¬(false = true)), if_pos rfl, dif_pos (And.intro hdlt hne)]
            exact ⟨[Line.task (indentOf d ++ "[" ++ compactGlyph t.status ++ "] " ++ t.content
                ++ " [" ++ toString t.id ++ "]") t.id], rfl, rfl, rfl⟩
        · rw [if_pos rfl, dif_pos (And.intro hdlt hne)]
          exact ⟨[Line.task (indentOf d ++ toString t.id ++ ": "
              ++ truncateContent t.content 40) t.id], rfl, rfl, rfl⟩
  · intro hge hne
    have hd1 : ¬((d : Int) < md ∧ t.tasks ≠ []) := by
      intro hx
      exact hge hx.1
    have hd2 : (d : Int) ≥ md ∧ t.tasks ≠ [] := ⟨Int.not_lt.mp hge, hne⟩
    refine ⟨?_, ?_, ?_, ?_, ?_⟩
    · rw [formatTaskSummary.eq_def, hl]
      simp only [hskip, Bool.false_eq_true, if_false, if_pos rfl]
      rw [dif_neg hd1]
      rfl
    · rw [formatTaskSummary.eq_def, hl]
      simp only [hskip, Bool.false_eq_true, if_false]
      rw [dif_neg hd1, if_pos hne]
      simp [countMarkers_cons_task, countMarkers_append, countMarkers_noteMap,
        countMarkers_cons_marker, countMarkers_nil]
    · rw [formatTaskTree.eq_def, hl]
      simp only [hskip, Bool.false_eq_true, if_false]
      cases cm2
      · rw [if_neg (by simp : ¬(false = true)), dif_neg hd1, if_pos hd2]
        rw [countMarkers_cons_task, countMarkers_append,
          (treeNotes_inert wn t.notes (indentOf d)).1, countMarkers_cons_marker,
          countMarkers_nil]
      · rw [if_pos rfl, dif_neg hd1, if_pos hd2]
        rfl
    · rw [formatTaskPaginated.eq_def, hl]
      dsimp only
      cases cm3
      · rw [if_neg (by simp : ¬(false = true)), if_neg (by simp : ¬(false = true)),
          dif_neg hd1, if_pos hd2]
        rfl
      · rw [if_neg (by simp : ¬(false = true)), if_pos rfl, dif_neg hd1, if_pos hd2]
        rfl
    · rw [formatTaskPaginated.eq_def, hl]
      dsimp only
      rw [if_pos rfl, dif_neg hd1]
      rfl

/-- Witness for the amended C7 theorem: at the chain fixture's root with
`maxDepth = 0`, the summary full mode emits exactly one elision marker
while the summary compact mode emits none. -/
theorem marker_behavior_by_mode_witness :
    (taskMapGet chainTasks 1 = some (mkTask 1 0 "a" 0 [2]) ∧
      (mkTask 1 0 "a" 0 [2]).status ≠ 1) ∧
    countMarkers (formatTaskSummary chainTasks true false 0 1 0) = 1 ∧
    countMarkers (formatTaskSummary chainTasks true true 0 1 0) = 0 := by
  have h := marker_behavior_by_mode chainTasks (mkTask 1 0 "a" 0 [2]) 1
    true true true true true true 0 0 rfl (Or.inl rfl)
  have h2 := h.2 (by decide) (by decide)
  exact ⟨⟨rfl, by decide⟩, h2.2.1, h2.1⟩

/-- C4 counterexample: a collection whose only record is neither top-level
nor referenced by any other record — the full-mode summary at depth 99
with closed tasks included renders no task line at all, while the stats
view's total is 1: the claim fails on arbitrary collections. -/
theorem summary_misses_orphan :
    statsTotal orphanTasks = 1 ∧
    taskLineIds (summaryBody orphanTasks true false 99) = [] := by
  constructor
  · rfl
  · rfl

/-- C4 (amended): over every collection that forms a well-formed forest
(a `TaskTree` forest matches the index, its roots are exactly the
top-level tasks, and its nodes cover the records exactly once) and every
`maxDepth` at least each tree's height (99 in the claim), the full-mode
summary with `includeClosed = true` visits every record exactly once: its
task-line ids are a permutation of the record ids, and their count equals
the stats view's total. -/
theorem summary_full_visits_all (ts : List TaskRecord) (md : Int) (f : List TaskTree)
    (hok : forestOk ts f = true)
    (hroots : f.map rootRec = topLevelTasks ts)
    (hperm : (forestFlat f).Perm ts)
    (hh : ∀ c ∈ f, (treeHeight c : Int) ≤ md) :
    (taskLineIds (summaryBody ts true false md)).Perm (ts.map TaskRecord.id) ∧
    (taskLineIds (summaryBody ts true false md)).length = statsTotal ts := by
  have hids : taskLineIds (summaryBody ts true false md)
      = (forestFlat f).map TaskRecord.id := by
    unfold summaryBody
    rw [taskLineIds_flatMap, ← hroots, List.flatMap_map]
    exact forest_render_ids ts md (sizeOf f) f 0 rfl hok
      (by
        intro c hc
        have h2 := hh c hc
        push_cast at h2 ⊢
        omega)
  constructor
  · rw [hids]
    exact hperm.map _
  · rw [hids, List.length_map, hperm.length_eq]
    rfl

/-- Witness for the amended C4 theorem at the two-task chain forest. -/
theorem summary_full_visits_all_witness :
    (forestOk chainTasks chainForest = true ∧
      chainForest.map rootRec = topLevelTasks chainTasks ∧
      (forestFlat chainForest).Perm chainTasks ∧
      (∀ c ∈ chainForest, (treeHeight c : Int) ≤ 99)) ∧
    ((taskLineIds (summaryBody chainTasks true false 99)).Perm
        (chainTasks.map TaskRecord.id) ∧
      (taskLineIds (summaryBody chainTasks true false 99)).length = statsTotal chainTasks) :=
  ⟨⟨by decide, by decide, by decide, by decide⟩,
    summary_full_visits_all chainTasks 99 chainForest (by decide) (by decide)
      (by decide) (by decide)⟩

/-- C5: pagination completeness — the concatenation of all pages
`1..totalPages` of the ultra-compact paginated view at depth 99 carries
exactly the same task-id sequence (hence the same id set) as the
full-mode summary at depth 99 with closed tasks included. -/
theorem pages_union_eq_summary_ids (ts : List TaskRecord) :
    taskLineIds (allPagesBody ts 99) = taskLineIds (summaryBody ts true false 99) ∧
    (taskLineIds (allPagesBody ts 99)).toFinset =
      (taskLineIds (summaryBody ts true false 99)).toFinset := by
  have hpage : ∀ k : Nat, k < totalPages ts →
      checkvist_get_tasks_paginated ts true true 99 ((k : Int) + 1) =
        Except.ok ((((topLevelTasks ts).drop k).take 1).flatMap fun t =>
          formatTaskPaginated ts true true 99 t.id 0 ++ [Line.blank]) := by
    intro k hk
    unfold checkvist_get_tasks_paginated
    rw [if_neg (by push_cast; omega)]
    norm_num
  have hlist : taskLineIds (allPagesBody ts 99) = taskLineIds (summaryBody ts true false 99) := by
    unfold allPagesBody summaryBody
    rw [taskLineIds_flatMap, taskLineIds_flatMap]
    show (List.range (topLevelTasks ts).length).flatMap _ = _
    refine Eq.trans (List.flatMap_congr fun k hk => ?_)
      (range_take_one (topLevelTasks ts)
        (fun t => taskLineIds (formatTaskSummary ts true false 99 t.id 0)))
    rw [List.mem_range] at hk
    rw [hpage k hk]
    simp only [pageLines]
    rw [taskLineIds_flatMap]
    refine List.flatMap_congr fun t _ => ?_
    rw [taskLineIds_append, pagIds_eq_reach, ← sumIds_eq_reach ts false 99 t.id 0]
    simp [taskLineIds]
  exact ⟨hlist, by rw [hlist]⟩

/-- C9: the paginated formatter applies no completion-state filter — its
rendered ids are unchanged under any rewrite of every record's status,
they are exactly the ids reachable within `maxDepth`, and every valid
page is served (never rejected) with exactly the reachable ids of its
top-level root; the tool's input schema has no `include_closed` field. -/
theorem paginated_ignores_status (ts : List TaskRecord) (g : TaskRecord → Int)
    (cm u : Bool) (md : Int) (i : Int) (d : Nat) (p : Int) :
    taskLineIds (formatTaskPaginated (ts.map fun t => { t with status := g t }) cm u md i d) =
      taskLineIds (formatTaskPaginated ts cm u md i d) ∧
    taskLineIds (formatTaskPaginated ts cm u md i d) = specReachableIds ts md i d ∧
    (1 ≤ p → p ≤ (totalPages ts : Int) →
      taskLineIds (pageLines (checkvist_get_tasks_paginated ts cm u md p)) =
        (((topLevelTasks ts).drop (p - 1).toNat).take 1).flatMap
          (fun t => specReachableIds ts md t.id 0) ∧
      isInvalidPage (checkvist_get_tasks_paginated ts cm u md p) = false) := by
  refine ⟨?_, pagIds_eq_reach ts cm u md i d, ?_⟩
  · rw [pagIds_eq_reach, pagIds_eq_reach, reach_map_status]
  · intro h1 h2
    constructor
    · unfold checkvist_get_tasks_paginated
      rw [if_neg (by omega)]
      simp only [pageLines]
      rw [taskLineIds_flatMap]
      refine List.flatMap_congr fun t _ => ?_
      rw [taskLineIds_append, pagIds_eq_reach]
      simp [taskLineIds]
    · unfold checkvist_get_tasks_paginated isInvalidPage
      rw [if_neg (by omega)]

/-- Witness for C9 at the chain fixture: page 1 is valid, the render of
the root is status-independent and covers the reachable ids. -/
theorem paginated_ignores_status_witness :
    (1 : Int) ≤ 1 ∧ (1 : Int) ≤ (totalPages chainTasks : Int) ∧
    taskLineIds (formatTaskPaginated (chainTasks.map fun t => { t with status := 1 })
        true false 2 1 0) =
      taskLineIds (formatTaskPaginated chainTasks true false 2 1 0) ∧
    taskLineIds (formatTaskPaginated chainTasks true false 2 1 0) =
      specReachableIds chainTasks 2 1 0 :=
  ⟨by decide, by decide,
    (paginated_ignores_status chainTasks (fun _ => 1) true false 2 1 0 1).1,
    (paginated_ignores_status chainTasks (fun _ => 1) true false 2 1 0 1).2.1⟩
